import Mathlib

/-!
Verification of `src/gpui/src/platform/mac/platform.rs` (macOS platform binding):
callback registry, menu table builder, dispatch bridge, clipboard codec and
dialog bridge, shallowly embedded in Lean.

Byte strings are modelled as `List Nat` with each element a byte value.
-/

/-- Modelled from the library contract used by the source: the UTF-8 encoding of a
single Unicode scalar value (`str` in Rust stores UTF-8 bytes; `as_ptr`/`len`
expose exactly these bytes). -/
def utf8EncodeChar (c : Char) : List Nat :=
  let v := c.toNat
  if v < 0x80 then [v]
  else if v < 0x800 then [0xC0 + v / 0x40, 0x80 + v % 0x40]
  else if v < 0x10000 then
    [0xE0 + v / 0x1000, 0x80 + v / 0x40 % 0x40, 0x80 + v % 0x40]
  else
    [0xF0 + v / 0x40000, 0x80 + v / 0x1000 % 0x40, 0x80 + v / 0x40 % 0x40, 0x80 + v % 0x40]

/-- The UTF-8 byte sequence of a string (what `String::as_bytes` / `as_ptr + len`
expose in the source). -/
def utf8Encode (s : String) : List Nat :=
  s.data.flatMap utf8EncodeChar

/-- Is `b` a UTF-8 continuation byte (`0b10xxxxxx`)? -/
def isContinuationByte (b : Nat) : Prop :=
  0x80 ≤ b ∧ b < 0xC0

instance (b : Nat) : Decidable (isContinuationByte b) := by
  unfold isContinuationByte; infer_instance

/-- Modelled from the library contract used by the source: decode one UTF-8
sequence whose lead byte is `b` and whose following bytes are taken from `bs`,
returning the decoded scalar value and the unconsumed bytes, or `none` on any
invalid, truncated, overlong, surrogate or out-of-range sequence. -/
def decodeUtf8Char (b : Nat) (bs : List Nat) : Option (Char × List Nat) :=
  if b < 0x80 then some (Char.ofNat b, bs)
  else if b < 0xC2 then none
  else if b < 0xE0 then
    match bs with
    | b1 :: bs1 =>
      if isContinuationByte b1 then
        some (Char.ofNat ((b - 0xC0) * 0x40 + (b1 - 0x80)), bs1)
      else none
    | [] => none
  else if b < 0xF0 then
    match bs with
    | b1 :: b2 :: bs2 =>
      if isContinuationByte b1 ∧ isContinuationByte b2 then
        if 0x800 ≤ (b - 0xE0) * 0x1000 + (b1 - 0x80) * 0x40 + (b2 - 0x80) ∧
            ((b - 0xE0) * 0x1000 + (b1 - 0x80) * 0x40 + (b2 - 0x80) < 0xD800 ∨
              0xE000 ≤ (b - 0xE0) * 0x1000 + (b1 - 0x80) * 0x40 + (b2 - 0x80)) then
          some (Char.ofNat ((b - 0xE0) * 0x1000 + (b1 - 0x80) * 0x40 + (b2 - 0x80)), bs2)
        else none
      else none
    | _ => none
  else if b < 0xF5 then
    match bs with
    | b1 :: b2 :: b3 :: bs3 =>
      if isContinuationByte b1 ∧ isContinuationByte b2 ∧ isContinuationByte b3 then
        if 0x10000 ≤ (b - 0xF0) * 0x40000 + (b1 - 0x80) * 0x1000 + (b2 - 0x80) * 0x40 + (b3 - 0x80) ∧
            (b - 0xF0) * 0x40000 + (b1 - 0x80) * 0x1000 + (b2 - 0x80) * 0x40 + (b3 - 0x80) < 0x110000 then
          some (Char.ofNat ((b - 0xF0) * 0x40000 + (b1 - 0x80) * 0x1000 + (b2 - 0x80) * 0x40 + (b3 - 0x80)), bs3)
        else none
      else none
    | _ => none
  else none

theorem decodeUtf8Char_length_le {b : Nat} {bs : List Nat} {c : Char} {rest : List Nat}
    (h : decodeUtf8Char b bs = some (c, rest)) : rest.length ≤ bs.length := by
  unfold decodeUtf8Char at h
  split at h
  · injection h with h'
    injection h' with _ h2
    subst h2; exact Nat.le_refl _
  · split at h
    · exact absurd h (by simp)
    · split at h
      · split at h
        · split at h
          · injection h with h'
            injection h' with _ h2
            subst h2; simp
          · exact absurd h (by simp)
        · exact absurd h (by simp)
      · split at h
        · split at h
          · split at h
            · split at h
              · injection h with h'
                injection h' with _ h2
                subst h2; simp; omega
              · exact absurd h (by simp)
            · exact absurd h (by simp)
          · exact absurd h (by simp)
        · split at h
          · split at h
            · split at h
              · split at h
                · injection h with h'
                  injection h' with _ h2
                  subst h2; simp; omega
                · exact absurd h (by simp)
              · exact absurd h (by simp)
            · exact absurd h (by simp)
          · exact absurd h (by simp)

/-- Modelled from the library contract used by the source: strict UTF-8 decoding of
a byte sequence into Unicode scalar values (`String::from_utf8` / `str::to_str`
succeed exactly on valid UTF-8). Returns `none` on any invalid sequence. -/
def utf8DecodeChars : List Nat → Option (List Char)
  | [] => some []
  | b :: bs =>
    match h : decodeUtf8Char b bs with
    | some (c, rest) => (utf8DecodeChars rest).map (fun cs => c :: cs)
    | none => none
termination_by l => l.length
decreasing_by
  have := decodeUtf8Char_length_le h
  simp only [List.length_cons]
  omega

/-- Strict UTF-8 decoding to a string: the model of `String::from_utf8(..).ok()`
and of `CStr::to_str(..).ok()` used by the source. -/
def utf8DecodeString (l : List Nat) : Option String :=
  (utf8DecodeChars l).map String.mk

/-- Modelled from the library contract used by the source (`String::from_utf8_lossy`):
total UTF-8 decoding that replaces each invalid sequence with U+FFFD and never
fails; it agrees with strict decoding on valid input (proved below). -/
def utf8LossyChars : List Nat → List Char
  | [] => []
  | b :: bs =>
    match h : decodeUtf8Char b bs with
    | some (c, rest) => c :: utf8LossyChars rest
    | none => Char.ofNat 0xFFFD :: utf8LossyChars bs
termination_by l => l.length
decreasing_by
  · have := decodeUtf8Char_length_le h
    simp only [List.length_cons]
    omega
  · simp only [List.length_cons]
    omega

/-- The model of `String::from_utf8_lossy(..).to_string()` from the source. -/
def from_utf8_lossy (l : List Nat) : String :=
  String.mk (utf8LossyChars l)

/-- Decoding one character undoes encoding one character, for any following bytes. -/
theorem decodeUtf8Char_encodeChar (c : Char) (bs : List Nat) :
    utf8EncodeChar c ++ bs ≠ [] ∧
    ∀ b rest, utf8EncodeChar c ++ bs = b :: rest → decodeUtf8Char b rest = some (c, bs) := by
  have hvalid : c.toNat < 0xD800 ∨ (0xDFFF < c.toNat ∧ c.toNat < 0x110000) := c.valid
  have hofNat : Char.ofNat c.toNat = c := Char.ofNat_toNat c
  set v := c.toNat with hv
  unfold utf8EncodeChar
  by_cases h1 : v < 0x80
  · simp only [← hv, if_pos h1, List.cons_append, List.nil_append]
    refine ⟨by simp, ?_⟩
    intro b rest hbr
    injection hbr with hb hrest
    subst hb; subst hrest
    unfold decodeUtf8Char
    rw [if_pos h1, hofNat]
  · by_cases h2 : v < 0x800
    · simp only [← hv, if_neg h1, if_pos h2, List.cons_append, List.nil_append]
      refine ⟨by simp, ?_⟩
      intro b rest hbr
      injection hbr with hb hrest
      subst hb; subst hrest
      unfold decodeUtf8Char
      have e1 : ¬ (0xC0 + v / 0x40 < 0x80) := by omega
      have e2 : ¬ (0xC0 + v / 0x40 < 0xC2) := by omega
      have e3 : 0xC0 + v / 0x40 < 0xE0 := by omega
      have e4 : isContinuationByte (0x80 + v % 0x40) := by
        unfold isContinuationByte; omega
      rw [if_neg e1, if_neg e2, if_pos e3]
      simp only [if_pos e4]
      have e5 : (0xC0 + v / 0x40 - 0xC0) * 0x40 + (0x80 + v % 0x40 - 0x80) = v := by omega
      rw [e5, hofNat]
    · by_cases h3 : v < 0x10000
      · simp only [← hv, if_neg h1, if_neg h2, if_pos h3, List.cons_append, List.nil_append]
        refine ⟨by simp, ?_⟩
        intro b rest hbr
        injection hbr with hb hrest
        subst hb; subst hrest
        unfold decodeUtf8Char
        have e1 : ¬ (0xE0 + v / 0x1000 < 0x80) := by omega
        have e2 : ¬ (0xE0 + v / 0x1000 < 0xC2) := by omega
        have e3 : ¬ (0xE0 + v / 0x1000 < 0xE0) := by omega
        have e4 : 0xE0 + v / 0x1000 < 0xF0 := by omega
        have e5 : isContinuationByte (0x80 + v / 0x40 % 0x40) ∧
            isContinuationByte (0x80 + v % 0x40) := by
          unfold isContinuationByte; omega
        rw [if_neg e1, if_neg e2, if_neg e3, if_pos e4]
        simp only [if_pos e5]
        have e6 : (0xE0 + v / 0x1000 - 0xE0) * 0x1000 + (0x80 + v / 0x40 % 0x40 - 0x80) * 0x40 +
            (0x80 + v % 0x40 - 0x80) = v := by omega
        simp only [e6]
        have e7 : 0x800 ≤ v ∧ (v < 0xD800 ∨ 0xE000 ≤ v) := by omega
        simp only [if_pos e7, hofNat]
      · simp only [← hv, if_neg h1, if_neg h2, if_neg h3, List.cons_append, List.nil_append]
        refine ⟨by simp, ?_⟩
        intro b rest hbr
        injection hbr with hb hrest
        subst hb; subst hrest
        unfold decodeUtf8Char
        have hub : v < 0x110000 := by omega
        have e1 : ¬ (0xF0 + v / 0x40000 < 0x80) := by omega
        have e2 : ¬ (0xF0 + v / 0x40000 < 0xC2) := by omega
        have e3 : ¬ (0xF0 + v / 0x40000 < 0xE0) := by omega
        have e4 : ¬ (0xF0 + v / 0x40000 < 0xF0) := by omega
        have e5 : 0xF0 + v / 0x40000 < 0xF5 := by omega
        have e6 : isContinuationByte (0x80 + v / 0x1000 % 0x40) ∧
            isContinuationByte (0x80 + v / 0x40 % 0x40) ∧
            isContinuationByte (0x80 + v % 0x40) := by
          unfold isContinuationByte; omega
        rw [if_neg e1, if_neg e2, if_neg e3, if_neg e4, if_pos e5]
        simp only [if_pos e6]
        have e7 : (0xF0 + v / 0x40000 - 0xF0) * 0x40000 + (0x80 + v / 0x1000 % 0x40 - 0x80) * 0x1000 +
            (0x80 + v / 0x40 % 0x40 - 0x80) * 0x40 + (0x80 + v % 0x40 - 0x80) = v := by omega
        simp only [e7]
        have e8 : 0x10000 ≤ v ∧ v < 0x110000 := by omega
        simp only [if_pos e8, hofNat]

theorem utf8DecodeChars_encodeChar (c : Char) (bs : List Nat) :
    utf8DecodeChars (utf8EncodeChar c ++ bs) = (utf8DecodeChars bs).map (fun cs => c :: cs) := by
  obtain ⟨hne, hstep⟩ := decodeUtf8Char_encodeChar c bs
  rcases hl : utf8EncodeChar c ++ bs with _ | ⟨b, rest⟩
  · exact absurd hl hne
  · rw [utf8DecodeChars, hstep b rest hl]

theorem utf8LossyChars_encodeChar (c : Char) (bs : List Nat) :
    utf8LossyChars (utf8EncodeChar c ++ bs) = c :: utf8LossyChars bs := by
  obtain ⟨hne, hstep⟩ := decodeUtf8Char_encodeChar c bs
  rcases hl : utf8EncodeChar c ++ bs with _ | ⟨b, rest⟩
  · exact absurd hl hne
  · rw [utf8LossyChars, hstep b rest hl]

theorem utf8DecodeChars_encode (cs : List Char) :
    utf8DecodeChars (cs.flatMap utf8EncodeChar) = some cs := by
  induction cs with
  | nil => simp [utf8DecodeChars]
  | cons c cs ih =>
    rw [List.flatMap_cons, utf8DecodeChars_encodeChar, ih, Option.map_some']

theorem utf8DecodeString_encode (s : String) :
    utf8DecodeString (utf8Encode s) = some s := by
  cases s with
  | mk data =>
    rw [utf8Encode, utf8DecodeString, utf8DecodeChars_encode, Option.map_some']

theorem utf8LossyChars_encode (cs : List Char) :
    utf8LossyChars (cs.flatMap utf8EncodeChar) = cs := by
  induction cs with
  | nil => simp [utf8LossyChars]
  | cons c cs ih =>
    rw [List.flatMap_cons, utf8LossyChars_encodeChar, ih]

theorem from_utf8_lossy_encode (s : String) :
    from_utf8_lossy (utf8Encode s) = s := by
  cases s with
  | mk data =>
    rw [utf8Encode, from_utf8_lossy, utf8LossyChars_encode]

/-! Clipboard codec (`write_to_clipboard` / `read_from_clipboard`) -/

/-- A clipboard item: a text string plus an optional metadata string
(`crate::ClipboardItem` as used by the source). -/
structure ClipboardItem where
  text : String
  metadata : Option String
deriving DecidableEq

/-- Modelled from the spec: `ClipboardItem::text_hash` is not under `src/`; per the
spec it is any fixed, deterministic, stable 64-bit content hash of the UTF-8 text
bytes. Modelled as 64-bit FNV-1a over the UTF-8 bytes. -/
def ClipboardItem.text_hash (text : String) : Nat :=
  (utf8Encode text).foldl (fun h b => ((h ^^^ b) * 0x100000001b3) % 2 ^ 64) 0xcbf29ce484222325

theorem hash_foldl_lt (l : List Nat) (a : Nat) (ha : a < 2 ^ 64) :
    l.foldl (fun h b => ((h ^^^ b) * 0x100000001b3) % 2 ^ 64) a < 2 ^ 64 := by
  induction l generalizing a with
  | nil => exact ha
  | cons b l ih =>
    exact ih _ (Nat.mod_lt _ (by norm_num))

theorem ClipboardItem.text_hash_lt (text : String) : ClipboardItem.text_hash text < 2 ^ 64 := by
  unfold ClipboardItem.text_hash
  exact hash_foldl_lt _ _ (by norm_num)

/-- The model of `u64::to_be_bytes`: the eight big-endian bytes of a 64-bit value
(used by the source to store the text hash on the pasteboard). -/
def toBeBytes8 (n : Nat) : List Nat :=
  [n / 2 ^ 56 % 2 ^ 8, n / 2 ^ 48 % 2 ^ 8, n / 2 ^ 40 % 2 ^ 8, n / 2 ^ 32 % 2 ^ 8,
   n / 2 ^ 24 % 2 ^ 8, n / 2 ^ 16 % 2 ^ 8, n / 2 ^ 8 % 2 ^ 8, n % 2 ^ 8]

/-- The model of `u64::from_be_bytes` applied to an 8-byte array. -/
def fromBeBytes8 (bytes : List Nat) : Nat :=
  bytes.foldl (fun acc b => acc * 2 ^ 8 + b) 0

theorem toBeBytes8_length (n : Nat) : (toBeBytes8 n).length = 8 := rfl

theorem fromBeBytes8_toBeBytes8 (n : Nat) (h : n < 2 ^ 64) :
    fromBeBytes8 (toBeBytes8 n) = n := by
  simp only [toBeBytes8, fromBeBytes8, List.foldl]
  omega

/-- The three pasteboard slots the source reads and writes: the generic plain-text
type (`NSPasteboardTypeString`), the private hash type (`zed-text-hash`) and the
private metadata type (`zed-metadata`). Each slot holds raw bytes when present.
`clearContents` clears all of them. -/
structure Pasteboard where
  textSlot : Option (List Nat)
  hashSlot : Option (List Nat)
  metadataSlot : Option (List Nat)
deriving DecidableEq

/-- The model of `NSPasteboard::clearContents` as used by `write_to_clipboard`. -/
def clearContents (_pb : Pasteboard) : Pasteboard :=
  { textSlot := none, hashSlot := none, metadataSlot := none }

/-- The model of `MacPlatform::write_to_clipboard`: clear all slots, store the
text bytes under the plain-text type, and, only when metadata is present, store
the big-endian text hash under the private hash type and the metadata bytes
under the private metadata type. -/
def write_to_clipboard (item : ClipboardItem) (pb : Pasteboard) : Pasteboard :=
  let pb := clearContents pb
  let pb := { pb with textSlot := some (utf8Encode item.text) }
  match item.metadata with
  | some metadata =>
    { pb with
      hashSlot := some (toBeBytes8 (ClipboardItem.text_hash item.text)),
      metadataSlot := some (utf8Encode metadata) }
  | none => pb

/-- The model of `MacPlatform::read_from_clipboard`: `none` when the plain-text
slot is absent; otherwise decode the text lossily, read the hash slot (valid only
when exactly 8 bytes) and the metadata slot (strict UTF-8), and surface the
metadata only when both are present and the stored hash equals the hash of the
current text. -/
def read_from_clipboard (pb : Pasteboard) : Option ClipboardItem :=
  match pb.textSlot with
  | none => none
  | some text_bytes =>
    let text := from_utf8_lossy text_bytes
    let hash_bytes :=
      (pb.hashSlot.bind fun bytes =>
        if bytes.length = 8 then some bytes else none).map fromBeBytes8
    let metadata_bytes := pb.metadataSlot.bind fun bytes => utf8DecodeString bytes
    match hash_bytes, metadata_bytes with
    | some hash, some metadata =>
      if hash = ClipboardItem.text_hash text then
        some { text := text, metadata := some metadata }
      else
        some { text := text, metadata := none }
    | _, _ => some { text := text, metadata := none }

/-- Claim C1: for every clipboard item with text T and optional metadata M, writing the
item and then reading with no intervening mutation returns the item unchanged,
including the metadata-absent case, where the initial clear guarantees no stale
hash or metadata survives a previous write. -/
theorem clipboard_round_trip (item : ClipboardItem) (pb : Pasteboard) :
    read_from_clipboard (write_to_clipboard item pb) = some item := by
  cases item with
  | mk text metadata =>
    cases metadata with
    | none =>
      simp only [write_to_clipboard, clearContents, read_from_clipboard,
        Option.none_bind, Option.map_none', from_utf8_lossy_encode]
    | some m =>
      simp only [write_to_clipboard, clearContents, read_from_clipboard,
        Option.some_bind]
      rw [if_pos (toBeBytes8_length _)]
      simp only [Option.map_some', utf8DecodeString_encode, from_utf8_lossy_encode,
        fromBeBytes8_toBeBytes8 _ (ClipboardItem.text_hash_lt text)]
      simp

/-- Claim C2: after writing item with text T and metadata M, if the plain-text slot is
externally overwritten with T2 whose stable hash differs from the stored hash
while the hash and metadata slots are untouched, reading returns T2 with no
metadata; the stale metadata M is never surfaced. -/
theorem clipboard_cross_process_invalidation (T T2 M : String) (pb : Pasteboard)
    (hne : ClipboardItem.text_hash T2 ≠ ClipboardItem.text_hash T) :
    read_from_clipboard
      { write_to_clipboard { text := T, metadata := some M } pb with
          textSlot := some (utf8Encode T2) } =
      some { text := T2, metadata := none } := by
  simp only [write_to_clipboard, clearContents, read_from_clipboard,
    Option.some_bind]
  rw [if_pos (toBeBytes8_length _)]
  simp only [Option.map_some', utf8DecodeString_encode, from_utf8_lossy_encode,
    fromBeBytes8_toBeBytes8 _ (ClipboardItem.text_hash_lt T)]
  rw [if_neg (fun h => hne h.symm)]

/-- Witness for C2 at concrete inputs. -/
theorem clipboard_cross_process_invalidation_witness :
    read_from_clipboard
      { write_to_clipboard { text := "1", metadata := some "m" } ⟨none, none, none⟩ with
          textSlot := some (utf8Encode "2") } =
      some { text := "2", metadata := none } :=
  clipboard_cross_process_invalidation "1" "2" "m" ⟨none, none, none⟩ (by decide)

/-- Claim C10: a present hash slot whose contents are not exactly 8 bytes, or a present
metadata slot whose bytes are not valid UTF-8, is treated the same as an absent
slot: the read returns the item with the lossily decoded text and no metadata,
and never fails. -/
theorem read_from_clipboard_malformed_slots (pb : Pasteboard) (text_bytes : List Nat)
    (htext : pb.textSlot = some text_bytes)
    (hbad : (∃ hb, pb.hashSlot = some hb ∧ hb.length ≠ 8) ∨
            (∃ mb, pb.metadataSlot = some mb ∧ utf8DecodeString mb = none)) :
    read_from_clipboard pb = some { text := from_utf8_lossy text_bytes, metadata := none } := by
  rcases hbad with ⟨hb, hh, hlen⟩ | ⟨mb, hm, hdec⟩
  · simp [read_from_clipboard, htext, hh, hlen]
  · rcases hps : pb.hashSlot with _ | hb
    · simp [read_from_clipboard, htext, hps]
    · by_cases hlen : hb.length = 8
      · simp [read_from_clipboard, htext, hps, hm, hdec, hlen]
      · simp [read_from_clipboard, htext, hps, hlen]

/-- Witness for C10 at a concrete input. -/
theorem read_from_clipboard_malformed_slots_witness :
    read_from_clipboard ⟨some (utf8Encode "hi"), some [0], some [255]⟩ =
      some { text := from_utf8_lossy (utf8Encode "hi"), metadata := none } :=
  read_from_clipboard_malformed_slots ⟨some (utf8Encode "hi"), some [0], some [255]⟩
    (utf8Encode "hi") rfl (Or.inl ⟨[0], rfl, by decide⟩)

/-! Callback registry and dispatch bridge -/

/-- A `menu_command` handler, modelled by what its body does to the registry when
invoked: either nothing, or a call to `on_menu_command` installing a new handler
(the re-entrant case). The command name and argument it receives are reported in
the dispatch output. -/
inductive MenuHandler where
  /-- a handler whose body does not touch the registry -/
  | plain : MenuHandler
  /-- a handler whose body calls `on_menu_command(new)` -/
  | installs (new : MenuHandler) : MenuHandler
deriving DecidableEq

/-- The state behind the `RefCell` of `MacForegroundPlatform`: one optional
handler per event category plus the menu action table. Handlers other than
`menu_command` are opaque tokens of type `β`; menu arguments (`Box<dyn Any>`)
are opaque values of type `α`. -/
structure MacForegroundPlatformState (α β : Type) where
  become_active : Option β
  resign_active : Option β
  event : Option β
  menu_command : Option MenuHandler
  open_files : Option β
  finish_launching : Option β
  menu_actions : List (String × Option α)
deriving DecidableEq

/-- The error raised by `RefCell::borrow_mut` when the cell is already mutably
borrowed (a Rust `BorrowMutError` panic). -/
inductive RefCellError where
  | borrowMutError : RefCellError
deriving DecidableEq

/-- The model of `RefCell::borrow_mut`: fails iff a mutable borrow is already
outstanding. -/
def borrow_mut (borrowed : Bool) : Except RefCellError Unit :=
  if borrowed then .error .borrowMutError else .ok ()

/-- The model of the `handle_menu_item` entry point. The entry-point
`platform.0.borrow_mut()` succeeds (AppKit delivers the activation with no
borrow outstanding) and the resulting `RefMut` stays alive until the end of the
function: the `arg` reference handed to the callback borrows from the table
inside it, and the handler is restored through it afterwards. The returned list
is the sequence of (command, argument) invocations delivered to the callback.
The `tag` is read as an `NSInteger` and cast `as usize` (wrap modulo 2 to the 64). -/
def handle_menu_item (st : MacForegroundPlatformState α β) (tag : Int) :
    Except RefCellError (MacForegroundPlatformState α β × List (String × Option α)) :=
  match st.menu_command with
  | none => .ok (st, [])
  | some callback =>
    let index := (tag % 2 ^ 64).toNat
    match st.menu_actions.get? index with
    | none => .ok ({ st with menu_command := some callback }, [])
    | some (action, arg) =>
      match callback with
      | .plain => .ok ({ st with menu_command := some callback }, [(action, arg)])
      | .installs new =>
        match borrow_mut true with
        | .error e => .error e
        | .ok _ =>
          let st := { st with menu_command := some new }
          .ok ({ st with menu_command := some callback }, [(action, arg)])

/-- The model of the `did_finish_launching` entry point: take the one-shot
handler out of its slot (clearing it), then invoke it if present. The second
component is the handler that was invoked, if any. (The activation-policy call
on the shared application is an external effect with no registry state.) -/
def did_finish_launching (st : MacForegroundPlatformState α β) :
    MacForegroundPlatformState α β × Option β :=
  ({ st with finish_launching := none }, st.finish_launching)

/-- The model of the `did_become_active` entry point: invoke the `become_active`
handler in place, without consuming it. The second component is the handler
invoked, if any. -/
def did_become_active (st : MacForegroundPlatformState α β) :
    MacForegroundPlatformState α β × Option β :=
  (st, st.become_active)

/-- The model of the `did_resign_active` entry point, analogous to
`did_become_active`. -/
def did_resign_active (st : MacForegroundPlatformState α β) :
    MacForegroundPlatformState α β × Option β :=
  (st, st.resign_active)

/-- The native application lifecycle notifications delivered to the delegate. -/
inductive LifecycleEvent where
  | didFinishLaunching : LifecycleEvent
  | didBecomeActive : LifecycleEvent
  | didResignActive : LifecycleEvent
deriving DecidableEq

/-- Dispatch one lifecycle notification. The second component is the
`finish_launching` handler invoked by this notification, if any (the
become/resign notifications invoke their own slots, never `finish_launching`). -/
def dispatchLifecycle (e : LifecycleEvent) (st : MacForegroundPlatformState α β) :
    MacForegroundPlatformState α β × Option β :=
  match e with
  | .didFinishLaunching => did_finish_launching st
  | .didBecomeActive => ((did_become_active st).1, none)
  | .didResignActive => ((did_resign_active st).1, none)

/-- Dispatch a sequence of lifecycle notifications, collecting every
`finish_launching` handler invocation. -/
def runLifecycle : List LifecycleEvent → MacForegroundPlatformState α β →
    MacForegroundPlatformState α β × List β
  | [], st => (st, [])
  | e :: es, st =>
    let (st1, inv) := dispatchLifecycle e st
    let (st2, invs) := runLifecycle es st1
    (st2, inv.toList ++ invs)

/-- Claim C6: a menu activation whose tag is not a valid index into the current
`menu_actions` table (negative, or at least the table length, with the table
within `Vec`/`NSInteger` bounds) invokes no command, raises no error, and leaves
the registry and the table unchanged. -/
theorem handle_menu_item_stale_tag (st : MacForegroundPlatformState α β) (tag : Int)
    (h1 : -(2 ^ 63) ≤ tag) (h2 : tag < 2 ^ 63)
    (h3 : (st.menu_actions.length : Int) < 2 ^ 63)
    (h4 : tag < 0 ∨ (st.menu_actions.length : Int) ≤ tag) :
    handle_menu_item st tag = .ok (st, []) := by
  rcases hmc : st.menu_command with _ | cb
  · simp only [handle_menu_item, hmc]
  · simp only [handle_menu_item, hmc]
    have hidx : st.menu_actions.get? ((tag % 2 ^ 64).toNat) = none := by
      rw [List.get?_eq_none]
      omega
    rw [hidx, ← hmc]

/-- Witness for C6 at a concrete state and tag. -/
def stC6W : MacForegroundPlatformState Unit Unit :=
  ⟨none, none, none, some .plain, none, none, [("cmd", none)]⟩

theorem handle_menu_item_stale_tag_witness :
    handle_menu_item stC6W 7 = .ok (stC6W, []) :=
  handle_menu_item_stale_tag stC6W 7 (by decide) (by decide) (by decide)
    (Or.inr (by decide))

theorem runLifecycle_no_finish_launching (es : List LifecycleEvent)
    (st : MacForegroundPlatformState α β) (h : st.finish_launching = none) :
    (runLifecycle es st).2 = [] ∧ (runLifecycle es st).1.finish_launching = none := by
  induction es generalizing st with
  | nil => exact ⟨rfl, h⟩
  | cons e es ih =>
    cases e with
    | didFinishLaunching =>
      have := ih { st with finish_launching := none } rfl
      simp only [runLifecycle, dispatchLifecycle, did_finish_launching, h]
      simpa using this
    | didBecomeActive =>
      have := ih st h
      simp only [runLifecycle, dispatchLifecycle, did_become_active]
      simpa using this
    | didResignActive =>
      have := ih st h
      simp only [runLifecycle, dispatchLifecycle, did_resign_active]
      simpa using this

/-- Claim C7: the first finish-launching notification takes the handler out of its
slot (the invoked handler is exactly the stored one and the resulting slot is
cleared), so no sequence of subsequent lifecycle notifications ever invokes a
`finish_launching` handler again. -/
theorem finish_launching_one_shot (st : MacForegroundPlatformState α β)
    (es : List LifecycleEvent) :
    (did_finish_launching st).2 = st.finish_launching ∧
    (did_finish_launching st).1.finish_launching = none ∧
    (runLifecycle es (did_finish_launching st).1).2 = [] := by
  refine ⟨rfl, rfl, ?_⟩
  exact (runLifecycle_no_finish_launching es _ rfl).1

/-- Claim C3 (code bug): a `menu_command` handler that re-entrantly installs a new
handler during a menu activation makes `handle_menu_item` abort with a
`RefCell` double-borrow panic rather than completing: the entry point holds the
`RefMut` across the callback invocation, so the `on_menu_command` call inside
the handler body fails its `borrow_mut`. -/
theorem handle_menu_item_reentrant_install_panics :
    handle_menu_item
      (⟨none, none, none, some (.installs .plain), none, none, [("cmd", none)]⟩ :
        MacForegroundPlatformState Unit Unit) 0 =
      .error .borrowMutError := rfl

/-! Menu table builder (`create_menu_bar`) -/

/-- The parsed keystroke structure (`crate::keymap::Keystroke`), as used by the
source: three modifier booleans and the bare key string. -/
structure Keystroke where
  cmd : Bool
  ctrl : Bool
  alt : Bool
  key : String
deriving DecidableEq

/-- A declarative menu item (`crate::MenuItem`): a separator, or an action with a
display name, an optional keystroke string, a command name, and an optional
opaque argument. -/
inductive MenuItem (α : Type) where
  | separator : MenuItem α
  | action (name : String) (keystroke : Option String) (action : String) (arg : Option α) :
      MenuItem α

/-- A declarative menu (`crate::Menu`): a name plus an ordered item list. -/
structure Menu (α : Type) where
  name : String
  items : List (MenuItem α)

/-- `NSEventModifierFlags::NSCommandKeyMask` (bit 20). -/
def NSCommandKeyMask : Nat := 2 ^ 20

/-- `NSEventModifierFlags::NSControlKeyMask` (bit 18). -/
def NSControlKeyMask : Nat := 2 ^ 18

/-- `NSEventModifierFlags::NSAlternateKeyMask` (bit 19). -/
def NSAlternateKeyMask : Nat := 2 ^ 19

/-- The modifier-mask loop of `create_menu_bar`: start from the empty flag set
and or-in each flag whose modifier boolean is set. -/
def keyEquivalentModifierMask (keystroke : Keystroke) : Nat :=
  [(keystroke.cmd, NSCommandKeyMask), (keystroke.ctrl, NSControlKeyMask),
    (keystroke.alt, NSAlternateKeyMask)].foldl
      (fun mask p => if p.1 then mask ||| p.2 else mask) 0

/-- A native menu item as configured by `create_menu_bar`: a separator, or an
item with a title, a key equivalent, the modifier mask when one was set
(`setKeyEquivalentModifierMask_` is only called in the keystroke branch), and
the assigned tag. -/
inductive NSMenuItemRepr where
  | separatorItem : NSMenuItemRepr
  | item (title : String) (keyEquivalent : String) (keyEquivalentModifierMask : Option Nat)
      (tag : Int) : NSMenuItemRepr

/-- A native menu as configured by `create_menu_bar`: a title and its items. -/
structure NSMenuRepr where
  title : String
  items : List NSMenuItemRepr

/-- The inner item loop of `create_menu_bar`, threading the `menu_actions` table.
An unparsable keystroke panics (modelled as `Except.error`) with the source's
message naming the menu and the item. -/
def create_menu_items (ksparse : String → Except String Keystroke) (menu_name : String) :
    List (MenuItem α) → List (String × Option α) →
      Except String (List NSMenuItemRepr × List (String × Option α))
  | [], menu_actions => .ok ([], menu_actions)
  | .separator :: rest, menu_actions =>
    match create_menu_items ksparse menu_name rest menu_actions with
    | .error e => .error e
    | .ok (items, menu_actions) => .ok (.separatorItem :: items, menu_actions)
  | .action name keystroke action arg :: rest, menu_actions =>
    match keystroke with
    | some ks =>
      match ksparse ks with
      | .error err =>
        .error ("Invalid keystroke for menu item " ++ menu_name ++ ":" ++ name ++ " - " ++ err)
      | .ok keystroke =>
        let tag : Int := menu_actions.length
        match create_menu_items ksparse menu_name rest (menu_actions ++ [(action, arg)]) with
        | .error e => .error e
        | .ok (items, menu_actions) =>
          .ok (.item name keystroke.key (some (keyEquivalentModifierMask keystroke)) tag :: items,
            menu_actions)
    | none =>
      let tag : Int := menu_actions.length
      match create_menu_items ksparse menu_name rest (menu_actions ++ [(action, arg)]) with
      | .error e => .error e
      | .ok (items, menu_actions) => .ok (.item name "" none tag :: items, menu_actions)

/-- The outer menu loop of `create_menu_bar`. -/
def create_menu_bar_aux (ksparse : String → Except String Keystroke) :
    List (Menu α) → List (String × Option α) →
      Except String (List NSMenuRepr × List (String × Option α))
  | [], menu_actions => .ok ([], menu_actions)
  | menu_config :: rest, menu_actions =>
    match create_menu_items ksparse menu_config.name menu_config.items menu_actions with
    | .error e => .error e
    | .ok (items, menu_actions) =>
      match create_menu_bar_aux ksparse rest menu_actions with
      | .error e => .error e
      | .ok (menus, menu_actions) => .ok (⟨menu_config.name, items⟩ :: menus, menu_actions)

/-- The model of `MacForegroundPlatform::create_menu_bar`, parameterized by the
external keystroke parser (`Keystroke::parse`, an external collaborator per the
spec). It first clears `menu_actions`, then builds the native menu bar and the
table together. -/
def create_menu_bar (ksparse : String → Except String Keystroke) (menus : List (Menu α)) :
    Except String (List NSMenuRepr × List (String × Option α)) :=
  create_menu_bar_aux ksparse menus []

/-- The (command name, argument) pair of an action item; `none` for separators. -/
def menuItemAction : MenuItem α → Option (String × Option α)
  | .separator => none
  | .action _ _ action arg => some (action, arg)

/-- The declaration-order list of (command name, argument) pairs of all action
items of a menu tree (menus left to right, items top to bottom). -/
def menuActionsSpec (menus : List (Menu α)) : List (String × Option α) :=
  menus.flatMap (fun m => m.items.filterMap menuItemAction)

/-- The tag of an interactive native item; separators carry no tag. -/
def itemTag : NSMenuItemRepr → Option Int
  | .separatorItem => none
  | .item _ _ _ tag => some tag

theorem create_menu_items_ok (ksparse : String → Except String Keystroke) (menu_name : String)
    (items : List (MenuItem α)) (acc : List (String × Option α))
    (nitems : List NSMenuItemRepr) (out : List (String × Option α))
    (h : create_menu_items ksparse menu_name items acc = .ok (nitems, out)) :
    out = acc ++ items.filterMap menuItemAction ∧
    nitems.filterMap itemTag =
      (List.range' acc.length (items.filterMap menuItemAction).length).map Int.ofNat := by
  induction items generalizing acc nitems out with
  | nil =>
    simp only [create_menu_items, Except.ok.injEq, Prod.mk.injEq] at h
    obtain ⟨h1, h2⟩ := h
    subst h1; subst h2
    simp [menuItemAction, List.range']
  | cons item rest ih =>
    cases item with
    | separator =>
      simp only [create_menu_items] at h
      rcases hrec : create_menu_items ksparse menu_name rest acc with e | ⟨its, out'⟩ <;>
        rw [hrec] at h
      · exact absurd h (by simp)
      · simp only [Except.ok.injEq, Prod.mk.injEq] at h
        obtain ⟨h1, h2⟩ := h
        subst h1; subst h2
        obtain ⟨ih1, ih2⟩ := ih acc its out' hrec
        refine ⟨?_, ?_⟩
        · rw [ih1, List.filterMap_cons_none (by rfl)]
        · rw [List.filterMap_cons_none (by rfl), ih2,
            List.filterMap_cons_none (f := menuItemAction) (by rfl)]
    | action name keystroke action arg =>
      cases keystroke with
      | some ks =>
        simp only [create_menu_items] at h
        rcases hks : ksparse ks with e | k <;> rw [hks] at h
        · exact absurd h (by simp)
        · rcases hrec : create_menu_items ksparse menu_name rest (acc ++ [(action, arg)]) with
            e | ⟨its, out'⟩ <;> rw [hrec] at h
          · exact absurd h (by simp)
          · simp only [Except.ok.injEq, Prod.mk.injEq] at h
            obtain ⟨h1, h2⟩ := h
            subst h1; subst h2
            obtain ⟨ih1, ih2⟩ := ih (acc ++ [(action, arg)]) its out' hrec
            refine ⟨?_, ?_⟩
            · rw [ih1, List.filterMap_cons_some (by rfl)]
              simp
            · rw [List.filterMap_cons_some (by rfl), ih2,
                List.filterMap_cons_some (f := menuItemAction) (by rfl)]
              simp only [List.length_cons, List.length_append, List.length_singleton,
                List.range'_succ, List.map_cons]
              rfl
      | none =>
        simp only [create_menu_items] at h
        rcases hrec : create_menu_items ksparse menu_name rest (acc ++ [(action, arg)]) with
          e | ⟨its, out'⟩ <;> rw [hrec] at h
        · exact absurd h (by simp)
        · simp only [Except.ok.injEq, Prod.mk.injEq] at h
          obtain ⟨h1, h2⟩ := h
          subst h1; subst h2
          obtain ⟨ih1, ih2⟩ := ih (acc ++ [(action, arg)]) its out' hrec
          refine ⟨?_, ?_⟩
          · rw [ih1, List.filterMap_cons_some (by rfl)]
            simp
          · rw [List.filterMap_cons_some (by rfl), ih2,
              List.filterMap_cons_some (f := menuItemAction) (by rfl)]
            simp only [List.length_cons, List.length_append, List.length_singleton,
              List.range'_succ, List.map_cons]
            rfl

theorem create_menu_bar_aux_ok (ksparse : String → Except String Keystroke)
    (menus : List (Menu α)) (acc : List (String × Option α))
    (nmenus : List NSMenuRepr) (out : List (String × Option α))
    (h : create_menu_bar_aux ksparse menus acc = .ok (nmenus, out)) :
    out = acc ++ menuActionsSpec menus ∧
    (nmenus.flatMap NSMenuRepr.items).filterMap itemTag =
      (List.range' acc.length (menuActionsSpec menus).length).map Int.ofNat := by
  induction menus generalizing acc nmenus out with
  | nil =>
    simp only [create_menu_bar_aux, Except.ok.injEq, Prod.mk.injEq] at h
    obtain ⟨h1, h2⟩ := h
    subst h1; subst h2
    simp [menuActionsSpec, List.range']
  | cons menu rest ih =>
    rw [create_menu_bar_aux] at h
    rcases hitems : create_menu_items ksparse menu.name menu.items acc with e | ⟨its, mid⟩ <;>
      simp only [hitems] at h
    · exact absurd h (by simp)
    · rcases hrec : create_menu_bar_aux ksparse rest mid with e | ⟨ms, out'⟩ <;>
        simp only [hrec] at h
      · exact absurd h (by simp)
      · simp only [Except.ok.injEq, Prod.mk.injEq] at h
        obtain ⟨h1, h2⟩ := h
        subst h1; subst h2
        obtain ⟨i1, i2⟩ := create_menu_items_ok ksparse menu.name menu.items acc its mid hitems
        obtain ⟨r1, r2⟩ := ih mid ms out' hrec
        subst i1
        have hspec : menuActionsSpec (menu :: rest) =
            menu.items.filterMap menuItemAction ++ menuActionsSpec rest := by
          rw [menuActionsSpec, menuActionsSpec, List.flatMap_cons]
        constructor
        · rw [r1, List.append_assoc, hspec]
        · rw [List.flatMap_cons, List.filterMap_append, i2, r2, List.length_append,
            ← List.map_append, hspec, List.length_append]
          congr 1
          have hra := List.range'_append acc.length (menu.items.filterMap menuItemAction).length
            (menuActionsSpec rest).length 1
          simp only [one_mul, Nat.mul_one] at hra
          rw [show (menu.items.filterMap menuItemAction).length + (menuActionsSpec rest).length =
              (menuActionsSpec rest).length + (menu.items.filterMap menuItemAction).length from
            Nat.add_comm _ _]
          exact hra

/-- Claim C5: for every menu tree, on success `create_menu_bar` produces a
`menu_actions` table whose entry i is the (command name, argument) of the i-th
action item in declaration order (menus left to right, items top to bottom),
assigns that item the native tag i, and assigns separators no tag and no table
entry, so the interactive items' tags are exactly 0..N-1 in order, each
assigned once. -/
theorem menu_tag_density (ksparse : String → Except String Keystroke)
    (menus : List (Menu α)) (bar : List NSMenuRepr) (acts : List (String × Option α))
    (h : create_menu_bar ksparse menus = .ok (bar, acts)) :
    acts = menuActionsSpec menus ∧
    (bar.flatMap NSMenuRepr.items).filterMap itemTag =
      (List.range acts.length).map Int.ofNat := by
  obtain ⟨h1, h2⟩ := create_menu_bar_aux_ok ksparse menus [] bar acts h
  simp only [List.nil_append] at h1
  subst h1
  refine ⟨rfl, ?_⟩
  rw [h2, List.range_eq_range']
  rfl

/-- Witness inputs for C5: a parser accepting every keystroke, and a two-menu
tree with separators interleaved. -/
def ksparseW : String → Except String Keystroke := fun s => .ok ⟨true, false, false, s⟩

def menusW : List (Menu Nat) :=
  [⟨"File", [.action "Open" (some "o") "open" (some 1), .separator,
    .action "Close" none "close" none]⟩,
   ⟨"Edit", [.separator, .action "Copy" (some "c") "copy" none]⟩]

def barW : List NSMenuRepr :=
  [⟨"File", [.item "Open" "o" (some (2 ^ 20)) 0, .separatorItem, .item "Close" "" none 1]⟩,
   ⟨"Edit", [.separatorItem, .item "Copy" "c" (some (2 ^ 20)) 2]⟩]

def actsW : List (String × Option Nat) := [("open", some 1), ("close", none), ("copy", none)]

theorem menu_tag_density_witness :
    actsW = menuActionsSpec menusW ∧
    (barW.flatMap NSMenuRepr.items).filterMap itemTag =
      (List.range actsW.length).map Int.ofNat :=
  menu_tag_density ksparseW menusW barW actsW (by rfl)

/-- The first keystroke-parse failure among a menu's items, in declaration
order: the offending item's name and the parse error. -/
def firstKeystrokeErrorItems (ksparse : String → Except String Keystroke) :
    List (MenuItem α) → Option (String × String)
  | [] => none
  | .separator :: rest => firstKeystrokeErrorItems ksparse rest
  | .action name keystroke _ _ :: rest =>
    match keystroke with
    | some ks =>
      match ksparse ks with
      | .error err => some (name, err)
      | .ok _ => firstKeystrokeErrorItems ksparse rest
    | none => firstKeystrokeErrorItems ksparse rest

/-- The first keystroke-parse failure in a menu tree, in declaration order: the
containing menu's name, the offending item's name and the parse error. -/
def firstKeystrokeError (ksparse : String → Except String Keystroke) :
    List (Menu α) → Option (String × String × String)
  | [] => none
  | menu :: rest =>
    match firstKeystrokeErrorItems ksparse menu.items with
    | some (name, err) => some (menu.name, name, err)
    | none => firstKeystrokeError ksparse rest

theorem create_menu_items_first_error (ksparse : String → Except String Keystroke)
    (menu_name : String) (items : List (MenuItem α)) (n e : String)
    (h : firstKeystrokeErrorItems ksparse items = some (n, e)) (acc : List (String × Option α)) :
    create_menu_items ksparse menu_name items acc =
      .error ("Invalid keystroke for menu item " ++ menu_name ++ ":" ++ n ++ " - " ++ e) := by
  induction items generalizing acc with
  | nil => exact absurd h (by simp [firstKeystrokeErrorItems])
  | cons item rest ih =>
    cases item with
    | separator =>
      rw [firstKeystrokeErrorItems] at h
      rw [create_menu_items, ih h acc]
    | action name keystroke action arg =>
      cases keystroke with
      | some ks =>
        rw [firstKeystrokeErrorItems] at h
        rcases hks : ksparse ks with err | k
        · rw [hks] at h
          simp only [Option.some.injEq, Prod.mk.injEq] at h
          obtain ⟨h1, h2⟩ := h
          subst h1; subst h2
          rw [create_menu_items, hks]
        · rw [hks] at h
          rw [create_menu_items, hks, ih h (acc ++ [(action, arg)])]
      | none =>
        rw [firstKeystrokeErrorItems] at h
        rw [create_menu_items, ih h (acc ++ [(action, arg)])]

theorem create_menu_items_no_error (ksparse : String → Except String Keystroke)
    (menu_name : String) (items : List (MenuItem α))
    (h : firstKeystrokeErrorItems ksparse items = none) (acc : List (String × Option α)) :
    ∃ its out, create_menu_items ksparse menu_name items acc = .ok (its, out) := by
  induction items generalizing acc with
  | nil => exact ⟨[], acc, rfl⟩
  | cons item rest ih =>
    cases item with
    | separator =>
      rw [firstKeystrokeErrorItems] at h
      obtain ⟨its, out, hrec⟩ := ih h acc
      exact ⟨.separatorItem :: its, out, by rw [create_menu_items]; simp only [hrec]⟩
    | action name keystroke action arg =>
      cases keystroke with
      | some ks =>
        rw [firstKeystrokeErrorItems] at h
        rcases hks : ksparse ks with err | k
        · rw [hks] at h
          exact absurd h (by simp)
        · rw [hks] at h
          obtain ⟨its, out, hrec⟩ := ih h (acc ++ [(action, arg)])
          refine ⟨.item name k.key (some (keyEquivalentModifierMask k)) (acc.length : Int) :: its,
            out, ?_⟩
          rw [create_menu_items, hks]
          simp only [hrec]
      | none =>
        rw [firstKeystrokeErrorItems] at h
        obtain ⟨its, out, hrec⟩ := ih h (acc ++ [(action, arg)])
        refine ⟨.item name "" none (acc.length : Int) :: its, out, ?_⟩
        rw [create_menu_items]
        simp only [hrec]

theorem create_menu_bar_aux_first_error (ksparse : String → Except String Keystroke)
    (menus : List (Menu α)) (m n e : String)
    (h : firstKeystrokeError ksparse menus = some (m, n, e)) (acc : List (String × Option α)) :
    create_menu_bar_aux ksparse menus acc =
      .error ("Invalid keystroke for menu item " ++ m ++ ":" ++ n ++ " - " ++ e) := by
  induction menus generalizing acc with
  | nil => exact absurd h (by simp [firstKeystrokeError])
  | cons menu rest ih =>
    rw [firstKeystrokeError] at h
    rcases hfe : firstKeystrokeErrorItems ksparse menu.items with _ | ⟨nn, ee⟩
    · rw [hfe] at h
      obtain ⟨its, mid, hout⟩ := create_menu_items_no_error ksparse menu.name menu.items hfe acc
      rw [create_menu_bar_aux]
      simp only [hout, ih h mid]
    · rw [hfe] at h
      simp only [Option.some.injEq, Prod.mk.injEq] at h
      obtain ⟨h1, h2, h3⟩ := h
      subst h1; subst h2; subst h3
      rw [create_menu_bar_aux, create_menu_items_first_error ksparse menu.name menu.items nn ee hfe acc]

/-- Claim C8: if any action item carries a keystroke string the keystroke parser
rejects, menu construction aborts with the panic message naming both the
containing menu and the offending item (the first such failure in declaration
order); the accelerator is never silently dropped. -/
theorem keystroke_error_aborts (ksparse : String → Except String Keystroke)
    (menus : List (Menu α)) (m n e : String)
    (h : firstKeystrokeError ksparse menus = some (m, n, e)) :
    create_menu_bar ksparse menus =
      .error ("Invalid keystroke for menu item " ++ m ++ ":" ++ n ++ " - " ++ e) :=
  create_menu_bar_aux_first_error ksparse menus m n e h []

/-- Witness inputs for C8: a parser rejecting every keystroke. -/
def ksparseErrW : String → Except String Keystroke := fun _ => .error "err"

def menusC8W : List (Menu Nat) := [⟨"File", [.action "Open" (some "bad") "open" none]⟩]

theorem keystroke_error_aborts_witness :
    create_menu_bar ksparseErrW menusC8W =
      .error ("Invalid keystroke for menu item " ++ "File" ++ ":" ++ "Open" ++ " - " ++ "err") :=
  keystroke_error_aborts ksparseErrW menusC8W "File" "Open" "err" (by rfl)

/-! File-open notification (`open_files`) and dialog bridge -/

/-- The path-conversion loop of the `open_files` entry point: convert each
native path's bytes with strict string decoding (`CStr::to_str`), keeping the
successes in order and logging one error per failure. Returns (converted paths,
error log). -/
def convert_open_files_paths : List (List Nat) → List String × List String
  | [] => ([], [])
  | path :: rest =>
    let (converted, errors) := convert_open_files_paths rest
    match utf8DecodeString path with
    | some string => (string :: converted, errors)
    | none => (converted, "error converting path to string" :: errors)

/-- The model of the `open_files` entry point: convert the native paths, then
invoke the `open_files` handler, if installed, with the converted list. The
first component is the error log; the second is the (handler, argument)
invocation, if any. -/
def open_files (st : MacForegroundPlatformState α β) (paths : List (List Nat)) :
    List String × Option (β × List String) :=
  ((convert_open_files_paths paths).2,
    st.open_files.map (fun callback => (callback, (convert_open_files_paths paths).1)))

theorem convert_open_files_paths_spec (paths : List (List Nat)) :
    (convert_open_files_paths paths).1 =
      (paths.filter (fun p => (utf8DecodeString p).isSome)).map
        (fun p => (utf8DecodeString p).getD "") ∧
    (convert_open_files_paths paths).2.length =
      (paths.filter (fun p => (utf8DecodeString p).isNone)).length := by
  induction paths with
  | nil => exact ⟨rfl, rfl⟩
  | cons path rest ih =>
    obtain ⟨ih1, ih2⟩ := ih
    rcases hdec : utf8DecodeString path with _ | s
    · simp [convert_open_files_paths, hdec, List.filter_cons, ih1, ih2]
    · simp [convert_open_files_paths, hdec, List.filter_cons, ih1, ih2]

/-- Claim C9: on a file-open notification, every native path that fails string
decoding is skipped (with one log entry each) rather than aborting the batch,
and the `open_files` handler is invoked once with the list of all successfully
converted paths in their original order. -/
theorem open_files_partial_success (st : MacForegroundPlatformState α β)
    (paths : List (List Nat)) (callback : β) (h : st.open_files = some callback) :
    (open_files st paths).2 =
      some (callback, (paths.filter (fun p => (utf8DecodeString p).isSome)).map
        (fun p => (utf8DecodeString p).getD "")) ∧
    (open_files st paths).1.length =
      (paths.filter (fun p => (utf8DecodeString p).isNone)).length := by
  obtain ⟨h1, h2⟩ := convert_open_files_paths_spec paths
  unfold open_files
  rw [h]
  exact ⟨by rw [Option.map_some', h1], h2⟩

/-- Witness inputs for C9: a state with an installed handler and a path batch
with one undecodable entry. -/
def stC9W : MacForegroundPlatformState Unit Nat :=
  ⟨none, none, none, none, some 0, none, []⟩

def pathsC9W : List (List Nat) := [utf8Encode "a", [255], utf8Encode "b"]

theorem open_files_partial_success_witness :
    (open_files stC9W pathsC9W).2 =
      some (0, (pathsC9W.filter (fun p => (utf8DecodeString p).isSome)).map
        (fun p => (utf8DecodeString p).getD "")) ∧
    (open_files stC9W pathsC9W).1.length =
      (pathsC9W.filter (fun p => (utf8DecodeString p).isNone)).length :=
  open_files_partial_success stC9W pathsC9W 0 (by rfl)

/-- The open-dialog options of `prompt_for_paths`
(`platform::PathPromptOptions`). -/
structure PathPromptOptions where
  directories : Bool
  files : Bool
  multiple : Bool

/-- The `NSOpenPanel` configuration that `prompt_for_paths` applies before
presenting the panel. -/
structure NSOpenPanelConfig where
  canChooseDirectories : Bool
  canChooseFiles : Bool
  allowsMultipleSelection : Bool
  resolvesAliases : Bool

/-- The panel configuration performed by `MacForegroundPlatform::prompt_for_paths`:
`setCanChooseDirectories_`, `setCanChooseFiles_`, `setAllowsMultipleSelection_`
from the options, and `setResolvesAliases_(false)`. -/
def prompt_for_paths_panel (options : PathPromptOptions) : NSOpenPanelConfig :=
  { canChooseDirectories := options.directories
    canChooseFiles := options.files
    allowsMultipleSelection := options.multiple
    resolvesAliases := false }

/-- Claim C4 counterexample: the claim says alias resolution is always enabled, but the
source calls `setResolvesAliases_(false.to_objc())`, so even with all options
on, the panel is configured not to resolve aliases. -/
theorem prompt_for_paths_resolves_aliases_counterexample :
    ¬ (prompt_for_paths_panel ⟨true, true, true⟩).resolvesAliases = true := by decide

/-- Claim C4 amended: for every combination of the allow-directories, allow-files and
allow-multiple options, `prompt_for_paths` configures the native open panel
with alias resolution disabled (never enabled), and each of the three options
independently controls its panel flag. -/
theorem prompt_for_paths_config (options : PathPromptOptions) :
    (prompt_for_paths_panel options).resolvesAliases = false ∧
    (prompt_for_paths_panel options).canChooseDirectories = options.directories ∧
    (prompt_for_paths_panel options).canChooseFiles = options.files ∧
    (prompt_for_paths_panel options).allowsMultipleSelection = options.multiple :=
  ⟨rfl, rfl, rfl, rfl⟩
